import Mathlib

/-!
# Verification of the libipld value model and derived DAG-CBOR codec

Shallow embedding of `src/core/src/ipld.rs`, `src/core/src/error.rs` and the
code generated by `src/dag-cbor-derive/src/gen.rs`, together with proofs about
indexing, traversal, and the record/union encode/decode contract.

The primitive reader/writer collaborators (`write_u64`, `read_len`,
`read_key`, the generic value codec) are not part of the sources; they are
modelled from the specification at token granularity: a token stands for one
wire item header together with the payload bytes the collaborator would
consume for it.
-/

namespace Libipld

/-- The recursive Ipld value (`enum Ipld` in `src/core/src/ipld.rs`, default
feature set: no `IntegerMap`/`Tag`).  `Float` carries the f64 bit pattern,
`Link` an opaque content identifier, both unexamined by the code under
verification. -/
inductive Ipld where
  | null
  | bool (b : Bool)
  | integer (i : Int)
  | float (bits : Nat)
  | str (s : String)
  | bytes (bs : List Nat)
  | list (l : List Ipld)
  | stringMap (m : List (String × Ipld))
  | link (cid : Nat)

mutual

/-- Structural equality of values (`PartialEq for Ipld`, derived in
`src/core/src/ipld.rs`). -/
def ipldBeq : Ipld → Ipld → Bool
  | .null, .null => true
  | .bool a, .bool b => a == b
  | .integer a, .integer b => a == b
  | .float a, .float b => a == b
  | .str a, .str b => a == b
  | .bytes a, .bytes b => a == b
  | .list a, .list b => ipldBeqL a b
  | .stringMap a, .stringMap b => ipldBeqM a b
  | .link a, .link b => a == b
  | _, _ => false

/-- Elementwise equality of value lists. -/
def ipldBeqL : List Ipld → List Ipld → Bool
  | [], [] => true
  | a :: as', b :: bs' => ipldBeq a b && ipldBeqL as' bs'
  | _, _ => false

/-- Elementwise equality of key-value binding lists. -/
def ipldBeqM : List (String × Ipld) → List (String × Ipld) → Bool
  | [], [] => true
  | (ka, a) :: as', (kb, b) :: bs' => ka == kb && ipldBeq a b && ipldBeqM as' bs'
  | _, _ => false

end

instance : BEq Ipld := ⟨ipldBeq⟩

/-- Index into an Ipld value (`enum IpldIndex` in `src/core/src/ipld.rs`):
a list position, an owned map key, or a borrowed map key. -/
inductive IpldIndex where
  | list (i : Nat)
  | map (key : String)
  | mapRef (key : String)
  deriving DecidableEq, Repr

/-- Classification of value shapes (`enum TypeErrorType` in
`src/core/src/error.rs`). -/
inductive TypeErrorType where
  | null
  | bool
  | integer
  | float
  | str
  | bytes
  | list
  | stringMap
  | integerMap
  | link
  | tag
  | key (s : String)
  | index (i : Nat)
  deriving DecidableEq, Repr

/-- `TypeError { expected, found }` from `src/core/src/error.rs`. -/
structure TypeError where
  expected : TypeErrorType
  found : TypeErrorType
  deriving DecidableEq, Repr

/-- `From<&Ipld> for TypeErrorType`: a value maps to its case tag, payload
discarded. -/
def TypeErrorType.ofIpld : Ipld → TypeErrorType
  | .null => .null
  | .bool _ => .bool
  | .integer _ => .integer
  | .float _ => .float
  | .str _ => .str
  | .bytes _ => .bytes
  | .list _ => .list
  | .stringMap _ => .stringMap
  | .link _ => .link

/-- `From<IpldIndex> for TypeErrorType`: a list position maps to `Index`,
either key form maps to `Key`. -/
def TypeErrorType.ofIndex : IpldIndex → TypeErrorType
  | .list i => .index i
  | .map s => .key s
  | .mapRef s => .key s

/-- An optional leading plus sign, accepted by `str::parse` for unsigned
integers. -/
def stripPlus : List Char → List Char
  | '+' :: rest => rest
  | l => l

/-- One step of decimal accumulation: previous value times ten plus the
digit value of the character. -/
def digitStep (a : Nat) (c : Char) : Nat := a * 10 + (c.toNat - 48)

/-- Modelled from the spec: `str::parse::<usize>` on a decimal string — an
optional leading plus sign, then at least one digit, value within the
64-bit unsigned range (checked-arithmetic overflow during accumulation is
equivalent to the final value exceeding the range, digits only add). -/
def parseUsize (s : String) : Option Nat :=
  let cs := stripPlus s.data
  if cs ≠ [] ∧ cs.all Char.isDigit then
    let v := cs.foldl digitStep 0
    if v < 2 ^ 64 then some v else none
  else none

/-- Digits of `n` in base ten, most significant first, prepended to `acc`;
produces nothing for `n = 0`. -/
def toDigitsAux : Nat → List Char → List Char
  | 0, acc => acc
  | n + 1, acc =>
    toDigitsAux ((n + 1) / 10) (Char.ofNat (48 + (n + 1) % 10) :: acc)
  termination_by n _ => n
  decreasing_by exact Nat.div_lt_self (Nat.succ_pos n) (by omega)

/-- Number of decimal digits `toDigitsAux` produces for `n`. -/
def ndlen : Nat → Nat
  | 0 => 0
  | n + 1 => ndlen ((n + 1) / 10) + 1
  termination_by n => n
  decreasing_by exact Nat.div_lt_self (Nat.succ_pos n) (by omega)

/-- Modelled from the spec: `usize::to_string`, the plain decimal rendering
of an unsigned integer. -/
def natToString (n : Nat) : String :=
  if n = 0 then "0" else String.mk (toDigitsAux n [])

/-- `BTreeMap::get` on the string-map payload: lookup of the first binding
of a key (keys are unique by invariant). -/
def mapGet (m : List (String × Ipld)) (key : String) : Option Ipld :=
  match m with
  | [] => none
  | (k, v) :: rest => if k = key then some v else mapGet rest key

/-- `Vec::swap_remove(i)`: swap the element at `i` with the last element,
then shrink by one; returns the removed element and the shrunken vector. -/
def swapRemove (l : List Ipld) (i : Nat) : Ipld × List Ipld :=
  let j := l.length - 1
  (l.getD i .null, ((l.set i (l.getD j .null)).set j (l.getD i .null)).dropLast)

/-- `Ipld::get` from `src/core/src/ipld.rs`: positional access on a list
(string selectors parsed as integers), key access on a string map (numeric
selectors rendered as decimal strings); any other combination, a failed
parse, an out-of-range position or a missing key yields
`TypeError { expected: from the selector, found: from self }`. -/
def Ipld.get (self : Ipld) (index : IpldIndex) : Except TypeError Ipld :=
  let ipld : Option (Option Ipld) :=
    match self with
    | .list l =>
      (match index with
        | .list i => some i
        | .map key => parseUsize key
        | .mapRef key => parseUsize key).map (fun i => l[i]?)
    | .stringMap m =>
      match index with
        | .map key => some (mapGet m key)
        | .mapRef key => some (mapGet m key)
        | .list i => some (mapGet m (natToString i))
    | _ => none
  match ipld.getD none with
  | some v => .ok v
  | none => .error ⟨TypeErrorType.ofIndex index, TypeErrorType.ofIpld self⟩

/-- `Ipld::take` from `src/core/src/ipld.rs`: same dispatch as `get` but
consuming; on a list the element is removed with `Vec::swap_remove`, on a
string map with `BTreeMap::remove`. -/
def Ipld.take (self : Ipld) (index : IpldIndex) : Except TypeError Ipld :=
  let ipld : Option (Option Ipld) :=
    match self with
    | .list l =>
      (match index with
        | .list i => some i
        | .map key => parseUsize key
        | .mapRef key => parseUsize key).map
        (fun i => if i < l.length then some (swapRemove l i).1 else none)
    | .stringMap m =>
      match index with
        | .map key => some (mapGet m key)
        | .mapRef key => some (mapGet m key)
        | .list i => some (mapGet m (natToString i))
    | _ => none
  match ipld.getD none with
  | some v => .ok v
  | none => .error ⟨TypeErrorType.ofIndex index, TypeErrorType.ofIpld self⟩

mutual

/-- Node count of a value, used as the traversal termination measure. -/
def isize : Ipld → Nat
  | .list l => 1 + lsize l
  | .stringMap m => 1 + msize m
  | _ => 1

/-- Node count of a list of values. -/
def lsize : List Ipld → Nat
  | [] => 0
  | x :: xs => isize x + lsize xs

/-- Node count of the values of a binding list. -/
def msize : List (String × Ipld) → Nat
  | [] => 0
  | (_, x) :: xs => isize x + msize xs

end

/-- The frames `IpldIter::next` pushes when it yields a value: the elements
of a list, the values of a string map (in stored order), nothing for the
scalar cases. -/
def childFrames (x : Ipld) : List (List Ipld) :=
  match x with
  | .list l => [l]
  | .stringMap m => [m.map Prod.snd]
  | _ => []

/-- Total node count across a stack of frames. -/
def stackSize (s : List (List Ipld)) : Nat :=
  match s with
  | [] => 0
  | f :: rest => lsize f + stackSize rest

/-- The yield sequence of `IpldIter` (`src/core/src/ipld.rs`), run to
exhaustion from a given stack of frames; the head of the list is the top
of the stack.  Each step takes the next value of the top frame, pushes its
child frame if it is a container, and yields it; an exhausted frame is
popped. -/
def iterSteps : List (List Ipld) → List Ipld
  | [] => []
  | [] :: s => iterSteps s
  | (x :: f) :: s => x :: iterSteps (childFrames x ++ f :: s)
  termination_by s => (stackSize s, s.length)
  decreasing_by
  · apply Prod.Lex.right'
    · simp [stackSize]
    · simp
  · apply Prod.Lex.left
    have hm : ∀ m : List (String × Ipld), lsize (m.map Prod.snd) = msize m := by
      intro m
      induction m with
      | nil => simp [lsize, msize]
      | cons hd tl ih => obtain ⟨_k, v⟩ := hd; simp [lsize, msize, ih]
    have h : stackSize (childFrames x ++ f :: s) + 1
        = isize x + stackSize (f :: s) := by
      cases x <;> simp [childFrames, stackSize, isize, hm] <;> omega
    simp [stackSize, lsize] at h ⊢
    omega

/-- `Ipld::iter`: the traversal starts from a single frame holding `self`. -/
def Ipld.iter (self : Ipld) : List Ipld :=
  iterSteps [[self]]

/-- `Ipld::references`: walk `iter` and push every encountered link's
identifier onto the caller-supplied accumulator. -/
def Ipld.references (self : Ipld) (set : List Nat) : List Nat :=
  self.iter.foldl
    (fun acc v => match v with | .link cid => acc ++ [cid] | _ => acc) set

mutual

/-- Reference pre-order flattening of a value: the value itself, then its
descendants depth-first. -/
def preorder : Ipld → List Ipld
  | .list l => .list l :: preorderL l
  | .stringMap m => .stringMap m :: preorderM m
  | x => [x]

/-- Pre-order flattening of each element of a list, concatenated. -/
def preorderL : List Ipld → List Ipld
  | [] => []
  | x :: xs => preorder x ++ preorderL xs

/-- Pre-order flattening of each value of a binding list, concatenated. -/
def preorderM : List (String × Ipld) → List Ipld
  | [] => []
  | (_, v) :: xs => preorder v ++ preorderM xs

end

mutual

/-- The link identifiers occurring in a value, one entry per occurrence,
in pre-order. -/
def linkOccs : Ipld → List Nat
  | .link cid => [cid]
  | .list l => linkOccsL l
  | .stringMap m => linkOccsM m
  | _ => []

/-- Link occurrences of each element of a list, concatenated. -/
def linkOccsL : List Ipld → List Nat
  | [] => []
  | x :: xs => linkOccs x ++ linkOccsL xs

/-- Link occurrences of each value of a binding list, concatenated. -/
def linkOccsM : List (String × Ipld) → List Nat
  | [] => []
  | (_, v) :: xs => linkOccs v ++ linkOccsM xs

end

/-- Pre-order flattening of every value of a stack of frames, top frame
first: the reference sequence `iterSteps` is proved to produce. -/
def framesPre : List (List Ipld) → List Ipld
  | [] => []
  | f :: rest => preorderL f ++ framesPre rest

/-! ## Wire model

The primitive reader/writer is a collaborator of the generated code and is
not among the sources; following the spec it is modelled at token
granularity.  One token stands for one leading marker together with the
payload bytes the primitive collaborator would consume for it: `header m n`
is `write_u64(w, m, n)` (the DAG-CBOR major `m` with length or count `n`,
markers `0xa0`–`0xbb` for maps, `0x80`–`0x9b` for lists), `nullT` is the
null marker `0xf6`, and the scalar tokens carry their decoded payloads. -/

/-- One wire item header plus the payload the primitive reader consumes
for it. -/
inductive Tok where
  | header (major : Nat) (len : Nat)
  | nullT
  | boolT (b : Bool)
  | intT (i : Int)
  | floatT (bits : Nat)
  | strT (s : String)
  | bytesT (bs : List Nat)
  | linkT (cid : Nat)
  deriving DecidableEq, Repr

/-- Errors of the codec layer.  `typeError` and `lengthOutOfRange` are the
two fatal errors the generated code constructs itself
(`libipld::error::TypeError`, `libipld::cbor::error::LengthOutOfRange` —
the latter a unit struct carrying no data); the remaining constructors
model fatal errors of the primitive collaborator. -/
inductive CborError where
  | typeError (e : TypeError)
  | lengthOutOfRange
  | unexpectedEof
  | unexpectedKey (expected found : String)
  | unexpectedCode
  | invalidItem
  deriving DecidableEq, Repr

mutual

/-- Modelled from the spec: `Encode<DagCborCodec>` for the generic value —
scalars become one token, a list becomes a list header with the encoded
elements, a map a map header with alternating key and value items. -/
def encodeIpld : Ipld → List Tok
  | .null => [.nullT]
  | .bool b => [.boolT b]
  | .integer i => [.intT i]
  | .float bits => [.floatT bits]
  | .str s => [.strT s]
  | .bytes bs => [.bytesT bs]
  | .list l => .header 4 l.length :: encodeIpldL l
  | .stringMap m => .header 5 m.length :: encodeIpldM m
  | .link c => [.linkT c]

/-- Encoded elements of a list, concatenated. -/
def encodeIpldL : List Ipld → List Tok
  | [] => []
  | x :: xs => encodeIpld x ++ encodeIpldL xs

/-- Encoded bindings of a map: key string then value, per binding. -/
def encodeIpldM : List (String × Ipld) → List Tok
  | [] => []
  | (k, v) :: xs => .strT k :: (encodeIpld v ++ encodeIpldM xs)

end

mutual

/-- Modelled from the spec: `Decode<DagCborCodec>` for the generic value.
The result carries the proof that at least one token was consumed, which
also serves as the termination measure of the nested item loops. -/
def decodeIpldT :
    (r : List Tok) → Except CborError {p : Ipld × List Tok // p.2.length < r.length}
  | [] => .error .unexpectedEof
  | .nullT :: r => .ok ⟨(.null, r), by simp⟩
  | .boolT b :: r => .ok ⟨(.bool b, r), by simp⟩
  | .intT i :: r => .ok ⟨(.integer i, r), by simp⟩
  | .floatT bits :: r => .ok ⟨(.float bits, r), by simp⟩
  | .strT s :: r => .ok ⟨(.str s, r), by simp⟩
  | .bytesT bs :: r => .ok ⟨(.bytes bs, r), by simp⟩
  | .linkT c :: r => .ok ⟨(.link c, r), by simp⟩
  | .header 4 n :: r =>
    match decodeIpldListT n r with
    | .error e => .error e
    | .ok ⟨(l, r'), h⟩ =>
      .ok ⟨(.list l, r'), by simp at h ⊢; omega⟩
  | .header 5 n :: r =>
    match decodeIpldMapT n r with
    | .error e => .error e
    | .ok ⟨(m, r'), h⟩ =>
      .ok ⟨(.stringMap m, r'), by simp at h ⊢; omega⟩
  | .header _ _ :: _ => .error .invalidItem
  termination_by r => (r.length, 0)

/-- `n` successive generic values (a list body). -/
def decodeIpldListT :
    (n : Nat) → (r : List Tok) →
      Except CborError {p : List Ipld × List Tok // p.2.length ≤ r.length}
  | 0, r => .ok ⟨([], r), Nat.le_refl _⟩
  | n + 1, r =>
    match decodeIpldT r with
    | .error e => .error e
    | .ok ⟨(v, r'), h1⟩ =>
      have h1' : r'.length < r.length := h1
      match decodeIpldListT n r' with
      | .error e => .error e
      | .ok ⟨(vs, r''), h2⟩ =>
        .ok ⟨(v :: vs, r''), by simp at h1 h2 ⊢; omega⟩
  termination_by _n r => (r.length, 1)

/-- `n` successive key–value bindings (a map body). -/
def decodeIpldMapT :
    (n : Nat) → (r : List Tok) →
      Except CborError {p : List (String × Ipld) × List Tok // p.2.length ≤ r.length}
  | 0, r => .ok ⟨([], r), Nat.le_refl _⟩
  | n + 1, r =>
    match r with
    | .strT k :: r' =>
      match decodeIpldT r' with
      | .error e => .error e
      | .ok ⟨(v, r''), h1⟩ =>
        have h1' : r''.length < r'.length := h1
        match decodeIpldMapT n r'' with
        | .error e => .error e
        | .ok ⟨(m, r'''), h2⟩ =>
          .ok ⟨((k, v) :: m, r'''), by simp at h1 h2 ⊢; omega⟩
    | [] => .error .unexpectedEof
    | _ => .error .invalidItem
  termination_by _n r => (r.length, 1)

end

/-- The generic value decoder without the consumption bound. -/
def decIpld (r : List Tok) : Except CborError (Ipld × List Tok) :=
  (decodeIpldT r).map Subtype.val

/-- The list-body decoder without the consumption bound. -/
def decIpldList (n : Nat) (r : List Tok) :
    Except CborError (List Ipld × List Tok) :=
  (decodeIpldListT n r).map Subtype.val

/-- The map-body decoder without the consumption bound. -/
def decIpldMap (n : Nat) (r : List Tok) :
    Except CborError (List (String × Ipld) × List Tok) :=
  (decodeIpldMapT n r).map Subtype.val

/-- Modelled from the spec: the probe `try_read_cbor` for the generic value
type — every well-formed item matches; an unknown header major is
not-this-shape.  `t` is the already-popped leading marker. -/
def tryReadIpld (t : Tok) (r : List Tok) :
    Except CborError (Option (Ipld × List Tok)) :=
  match t with
  | .header m l =>
    if m = 4 ∨ m = 5 then (decIpld (.header m l :: r)).map some else .ok none
  | _ => (decIpld (t :: r)).map some

/-- Modelled from the spec: `Decode<DagCborCodec>` for `String` — exactly
one string item. -/
def decodeStrTok (r : List Tok) : Except CborError (String × List Tok) :=
  match r with
  | .strT s :: r' => .ok (s, r')
  | [] => .error .unexpectedEof
  | _ => .error .invalidItem

/-- Modelled from the spec: the probe for `String` — a string item matches,
anything else is not-this-shape. -/
def tryReadString (t : Tok) (r : List Tok) :
    Except CborError (Option (String × List Tok)) :=
  match t with
  | .strT s => .ok (some (s, r))
  | _ => .ok none

/-- Modelled from the spec: the probe for `u64` — an unsigned integer item
within the 64-bit range matches, anything else is not-this-shape. -/
def tryReadU64 (t : Tok) (r : List Tok) :
    Except CborError (Option (Nat × List Tok)) :=
  match t with
  | .intT i => if 0 ≤ i ∧ i < 2 ^ 64 then .ok (some (i.toNat, r)) else .ok none
  | _ => .ok none

/-- Modelled from the spec: `read_key(source, expected)` — reads one string
item and requires it to equal the expected key; any deviation is fatal. -/
def readKey (r : List Tok) (expected : String) : Except CborError (List Tok) :=
  match r with
  | .strT s :: r' =>
    if s = expected then .ok r' else .error (.unexpectedKey expected s)
  | [] => .error .unexpectedEof
  | _ => .error .invalidItem

/-! ## Descriptors of `dag-cbor-derive`

The compile-time field and variant descriptors consumed by
`src/dag-cbor-derive/src/gen.rs` (its `ast` module: `Field`, `Struct`,
`Union`, `StructRepr`, `UnionRepr`).  A runtime record value is the list of
its field values in declaration order; a runtime union value is the index
of its variant together with that variant's field values. -/

/-- The four record wire representations. -/
inductive StructRepr where
  | map
  | tuple
  | value
  | null
  deriving DecidableEq, Repr

/-- The four union wire representations. -/
inductive UnionRepr where
  | keyed
  | kinded
  | string
  | int
  deriving DecidableEq, Repr

/-- A field descriptor: name (or positional index string), optional rename,
optional default value. -/
structure Field where
  name : String
  rename : Option String := none
  default : Option Ipld := none

/-- A record (or union variant) descriptor: name, optional rename (used
when the struct is a union variant), declared ordinal (used by `Int`
unions), ordered fields, wire representation. -/
structure Struct where
  name : String
  rename : Option String := none
  ord : Nat := 0
  fields : List Field
  repr : StructRepr

/-- A union descriptor: ordered variants and wire representation. -/
structure Union where
  name : String
  variants : List Struct
  repr : UnionRepr

/-- `rename`: the wire key of a field is its explicit rename or else its
name/position string. -/
def fieldKey (f : Field) : String := f.rename.getD f.name

/-- The wire key of a union variant: its explicit rename or else its name. -/
def variantKey (s : Struct) : String := s.rename.getD s.name

/-- `default` in `gen.rs`: a field with a declared default is emitted only
when its current value differs from the default; `elide` is true when the
field is skipped. -/
def elide (f : Field) (v : Ipld) : Bool :=
  match f.default with
  | some d => ipldBeq v d
  | none => false

/-- Emitted tokens of the fields of a `Map`-representation record: per
non-elided field (paired with its bound value), the key string then the
encoded value, in declaration order. -/
def encodeMapFields : List Field → List Ipld → List Tok
  | f :: fs, v :: vs =>
    (if elide f v then [] else .strT (fieldKey f) :: encodeIpld v)
      ++ encodeMapFields fs vs
  | _, _ => []

/-- Emitted tokens of the fields of a `Tuple`-representation record: per
non-elided field, the encoded value only. -/
def encodeTupleFields : List Field → List Ipld → List Tok
  | f :: fs, v :: vs =>
    (if elide f v then [] else encodeIpld v) ++ encodeTupleFields fs vs
  | _, _ => []

/-- `gen_encode_struct_body`: `Map` writes `write_u64(w, 5, fields.len())`
— the declared field count — then the possibly elided fields; `Tuple`
likewise with a list header; `Value` writes its single field's value bare
(still subject to elision); `Null` writes the null token. -/
def encodeStructBody (s : Struct) (vals : List Ipld) : List Tok :=
  match s.repr with
  | .map => .header 5 s.fields.length :: encodeMapFields s.fields vals
  | .tuple => .header 4 s.fields.length :: encodeTupleFields s.fields vals
  | .value =>
    match s.fields, vals with
    | [f], [v] => if elide f v then [] else encodeIpld v
    | _, _ => []
  | .null => [.nullT]

/-- `gen_encode_union`: `Keyed` wraps the variant body in a one-entry map
keyed by the variant key; `Kinded` writes the body bare; `String` writes
the variant key as a string; `Int` writes the variant ordinal as a `u64`. -/
def encodeUnion (u : Union) (idx : Nat) (vals : List Ipld) : List Tok :=
  match u.variants[idx]? with
  | none => []
  | some s =>
    match u.repr with
    | .keyed => .header 5 1 :: .strT (variantKey s) :: encodeStructBody s vals
    | .kinded => encodeStructBody s vals
    | .string => [.strT (variantKey s)]
    | .int => [.intT (s.ord : Int)]

/-- The field loop of the `Map` branch of `gen_try_read_cbor_struct`: per
declared field, `read_key` of the expected key then a full value decode. -/
def readMapFields :
    List Field → List Tok → Except CborError (List Ipld × List Tok)
  | [], r => .ok ([], r)
  | f :: fs, r =>
    match readKey r (fieldKey f) with
    | .error e => .error e
    | .ok r' =>
      match decIpld r' with
      | .error e => .error e
      | .ok (v, r'') =>
        match readMapFields fs r'' with
        | .error e => .error e
        | .ok (vs, r''') => .ok (v :: vs, r''')

/-- The field loop of the `Tuple` branch: positional value decodes only. -/
def readTupleFields :
    List Field → List Tok → Except CborError (List Ipld × List Tok)
  | [], r => .ok ([], r)
  | _f :: fs, r =>
    match decIpld r with
    | .error e => .error e
    | .ok (v, r') =>
      match readTupleFields fs r' with
      | .error e => .error e
      | .ok (vs, r'') => .ok (v :: vs, r'')

/-- `gen_try_read_cbor_struct`: the three-outcome record probe against the
already-popped leading marker `t`.  `Map` requires a map header
(`0xa0`–`0xbb`) whose length equals the declared field count — any other
length is the fatal `LengthOutOfRange` — then the keyed fields in order;
`Tuple` likewise with a list header (`0x80`–`0x9b`); `Value` delegates to
the single field's own probe; `Null` matches only the null marker
(`0xf6`–`0xf7`).  A non-matching marker is not-this-shape. -/
def tryReadStruct (s : Struct) (t : Tok) (r : List Tok) :
    Except CborError (Option (List Ipld × List Tok)) :=
  match s.repr with
  | .map =>
    match t with
    | .header 5 len =>
      if len ≠ s.fields.length then .error .lengthOutOfRange
      else
        match readMapFields s.fields r with
        | .error e => .error e
        | .ok (vals, r') => .ok (some (vals, r'))
    | _ => .ok none
  | .tuple =>
    match t with
    | .header 4 len =>
      if len ≠ s.fields.length then .error .lengthOutOfRange
      else
        match readTupleFields s.fields r with
        | .error e => .error e
        | .ok (vals, r') => .ok (some (vals, r'))
    | _ => .ok none
  | .value =>
    match tryReadIpld t r with
    | .error e => .error e
    | .ok none => .ok none
    | .ok (some (v, r')) => .ok (some ([v], r'))
  | .null =>
    match t with
    | .nullT => .ok (some ([], r))
    | _ => .ok none

/-- The record probe on a stream whose leading marker has not been popped
yet (pop it, then probe). -/
def tryReadStructStream (s : Struct) (r : List Tok) :
    Except CborError (Option (List Ipld × List Tok)) :=
  match r with
  | [] => .error .unexpectedEof
  | t :: r' => tryReadStruct s t r'

/-- The variant scan of the `Keyed` branch of `gen_try_read_cbor_union`:
for each variant whose key equals the decoded key, pop a marker
(`read_u8`) and run the variant's record probe; `res?;` propagates a fatal
error, returns on a match, and silently discards a not-this-shape result —
falling through to the next variant with the marker already consumed.
Exhaustion is the fatal `TypeError { expected: Key(key), found: Null }`. -/
def keyedGo (variants : List Struct) (idx : Nat) (key : String)
    (r : List Tok) : Except CborError (Option ((Nat × List Ipld) × List Tok)) :=
  match variants with
  | [] => .error (.typeError ⟨.key key, .null⟩)
  | s :: rest =>
    if variantKey s = key then
      match r with
      | [] => .error .unexpectedEof
      | t :: r' =>
        match tryReadStruct s t r' with
        | .error e => .error e
        | .ok (some (vals, r'')) => .ok (some ((idx, vals), r''))
        | .ok none => keyedGo rest (idx + 1) key r'
    else keyedGo rest (idx + 1) key r

/-- The variant scan of the `Kinded` branch: each variant's record probe is
run in declaration order against the same leading marker and stream; a
fatal error propagates, the first match is returned, and exhaustion is the
fatal `TypeError { expected: Null, found: Null }`. -/
def kindedGo (variants : List Struct) (idx : Nat) (t : Tok) (r : List Tok) :
    Except CborError (Option ((Nat × List Ipld) × List Tok)) :=
  match variants with
  | [] => .error (.typeError ⟨.null, .null⟩)
  | s :: rest =>
    match tryReadStruct s t r with
    | .error e => .error e
    | .ok (some (vals, r')) => .ok (some ((idx, vals), r'))
    | .ok none => kindedGo rest (idx + 1) t r

/-- The match arms of the `String` branch: first variant whose key equals
the decoded string. -/
def stringGo (variants : List Struct) (idx : Nat) (key : String) : Option Nat :=
  match variants with
  | [] => none
  | s :: rest => if variantKey s = key then some idx else stringGo rest (idx + 1) key

/-- The match arms of the `Int` branch: first variant whose declared
ordinal equals the decoded integer. -/
def intGo (variants : List Struct) (idx : Nat) (key : Nat) : Option Nat :=
  match variants with
  | [] => none
  | s :: rest => if s.ord = key then some idx else intGo rest (idx + 1) key

/-- The `Keyed` branch of `gen_try_read_cbor_union`: requires the
one-entry map marker `0xa1` (else not-this-shape), decodes the key string,
and scans the variants. -/
def tryReadUnionKeyed (variants : List Struct) (t : Tok) (r : List Tok) :
    Except CborError (Option ((Nat × List Ipld) × List Tok)) :=
  if t ≠ .header 5 1 then .ok none
  else
    match decodeStrTok r with
    | .error e => .error e
    | .ok (key, r') => keyedGo variants 0 key r'

/-- The `String` branch: probes a string and dispatches on it; an
unmatched name is the fatal `TypeError { expected: Key(name), found:
Null }`. -/
def tryReadUnionString (variants : List Struct) (t : Tok) (r : List Tok) :
    Except CborError (Option ((Nat × List Ipld) × List Tok)) :=
  match tryReadString t r with
  | .error e => .error e
  | .ok none => .ok none
  | .ok (some (key, r')) =>
    match stringGo variants 0 key with
    | some idx => .ok (some ((idx, []), r'))
    | none => .error (.typeError ⟨.key key, .null⟩)

/-- The `Int` branch: probes a `u64` and dispatches on it; an unmatched
ordinal is the fatal `TypeError { expected: Key(decimal rendering),
found: Null }`. -/
def tryReadUnionInt (variants : List Struct) (t : Tok) (r : List Tok) :
    Except CborError (Option ((Nat × List Ipld) × List Tok)) :=
  match tryReadU64 t r with
  | .error e => .error e
  | .ok none => .ok none
  | .ok (some (key, r')) =>
    match intGo variants 0 key with
    | some idx => .ok (some ((idx, []), r'))
    | none => .error (.typeError ⟨.key (natToString key), .null⟩)

/-- `gen_try_read_cbor_union`: dispatch on the union's representation;
`Kinded` scans the variant probes directly. -/
def tryReadUnion (u : Union) (t : Tok) (r : List Tok) :
    Except CborError (Option ((Nat × List Ipld) × List Tok)) :=
  match u.repr with
  | .keyed => tryReadUnionKeyed u.variants t r
  | .kinded => kindedGo u.variants 0 t r
  | .string => tryReadUnionString u.variants t r
  | .int => tryReadUnionInt u.variants t r

/-- `Decode::decode` of a derived record: `cbor::decode::read` pops the
leading marker, probes, and treats not-this-shape at the entry point as
fatal. -/
def readStruct (s : Struct) (r : List Tok) :
    Except CborError (List Ipld × List Tok) :=
  match r with
  | [] => .error .unexpectedEof
  | t :: r' =>
    match tryReadStruct s t r' with
    | .error e => .error e
    | .ok (some p) => .ok p
    | .ok none => .error .unexpectedCode

/-- `Decode::decode` of a derived union, as for records. -/
def readUnion (u : Union) (r : List Tok) :
    Except CborError ((Nat × List Ipld) × List Tok) :=
  match r with
  | [] => .error .unexpectedEof
  | t :: r' =>
    match tryReadUnion u t r' with
    | .error e => .error e
    | .ok (some p) => .ok p
    | .ok none => .error .unexpectedCode

/-- A record descriptor with no declared defaults (no field elision can
occur). -/
def noDefaults (s : Struct) : Prop :=
  ∀ f ∈ s.fields, f.default = none

/-- The arity side conditions the generator asserts at generation time,
together with the match between a runtime value and its descriptor:
one value per declared field, a `Value` record has exactly one field, a
`Null` record has none. -/
def arityOk (s : Struct) (vals : List Ipld) : Prop :=
  vals.length = s.fields.length
    ∧ (s.repr = .value → s.fields.length = 1)
    ∧ (s.repr = .null → s.fields.length = 0)

/-- The link identifier of a value when it is a link. -/
def toLink : Ipld → Option Nat
  | .link cid => some cid
  | _ => none

/-! ## Traversal: `iter` and `references` (C6) -/

theorem preorderL_map_snd (m : List (String × Ipld)) :
    preorderL (m.map Prod.snd) = preorderM m := by
  induction m with
  | nil => simp [preorderL, preorderM]
  | cons hd tl ih => obtain ⟨_k, v⟩ := hd; simp [preorderL, preorderM, ih]

theorem framesPre_append (a b : List (List Ipld)) :
    framesPre (a ++ b) = framesPre a ++ framesPre b := by
  induction a with
  | nil => simp [framesPre]
  | cons f rest ih => simp [framesPre, ih]

/-- The iterator run to exhaustion yields the pre-order flattening of its
frame stack. -/
theorem iterSteps_eq (s : List (List Ipld)) : iterSteps s = framesPre s := by
  match s with
  | [] => simp [iterSteps, framesPre]
  | [] :: s =>
    rw [iterSteps, iterSteps_eq s]
    simp [framesPre, preorderL]
  | (x :: f) :: s =>
    rw [iterSteps, iterSteps_eq (childFrames x ++ f :: s), framesPre_append]
    cases x <;>
      simp [childFrames, framesPre, preorder, preorderL, preorderL_map_snd]
  termination_by (stackSize s, s.length)
  decreasing_by
  · apply Prod.Lex.right'
    · simp [stackSize]
    · simp
  · apply Prod.Lex.left
    have hm : ∀ m : List (String × Ipld), lsize (m.map Prod.snd) = msize m := by
      intro m
      induction m with
      | nil => simp [lsize, msize]
      | cons hd tl ih => obtain ⟨_k, v⟩ := hd; simp [lsize, msize, ih]
    have h : stackSize (childFrames x ++ f :: s) + 1
        = isize x + stackSize (f :: s) := by
      cases x <;> simp [childFrames, stackSize, isize, hm] <;> omega
    simp [stackSize, lsize] at h ⊢
    omega

/-- `iter` is exactly the pre-order flattening of the value. -/
theorem iter_eq_preorder (x : Ipld) : x.iter = preorder x := by
  rw [Ipld.iter, iterSteps_eq]
  simp [framesPre, preorderL]

theorem preorder_head (x : Ipld) : (preorder x).head? = some x := by
  cases x <;> simp [preorder]

theorem foldPush_eq (l : List Ipld) (set : List Nat) :
    l.foldl (fun acc v => match v with | .link cid => acc ++ [cid] | _ => acc)
        set
      = set ++ l.filterMap toLink := by
  induction l generalizing set with
  | nil => simp
  | cons x xs ih => cases x <;> simp [toLink, ih]

mutual

theorem filterLink_preorder (x : Ipld) :
    (preorder x).filterMap toLink = linkOccs x := by
  cases x <;>
    simp [preorder, linkOccs, toLink, filterLink_preorderL,
      filterLink_preorderM]

theorem filterLink_preorderL (l : List Ipld) :
    (preorderL l).filterMap toLink = linkOccsL l := by
  cases l with
  | nil => simp [preorderL, linkOccsL]
  | cons x xs =>
    simp [preorderL, linkOccsL, List.filterMap_append, filterLink_preorder,
      filterLink_preorderL]

theorem filterLink_preorderM (m : List (String × Ipld)) :
    (preorderM m).filterMap toLink = linkOccsM m := by
  cases m with
  | nil => simp [preorderM, linkOccsM]
  | cons hd tl =>
    obtain ⟨_k, v⟩ := hd
    simp [preorderM, linkOccsM, List.filterMap_append, filterLink_preorder,
      filterLink_preorderM]

end

/-- C6: for every value, `references` appends to the caller-supplied
accumulator exactly the list of link identifiers occurring in the value —
one entry per occurrence, in pre-order, without deduplication (so a value
with exactly `k` link occurrences contributes exactly `k` entries) — and
`iter` is the pre-order depth-first traversal, yielding the value itself
before any of its descendants. -/
theorem c6_references_iter (x : Ipld) (set : List Nat) :
    x.references set = set ++ linkOccs x
      ∧ x.iter = preorder x
      ∧ x.iter.head? = some x := by
  refine ⟨?_, iter_eq_preorder x, ?_⟩
  · rw [Ipld.references, iter_eq_preorder, foldPush_eq, filterLink_preorder]
  · rw [iter_eq_preorder]
    exact preorder_head x

/-! ## Decimal strings: `to_string` / `parse` round trip -/

theorem digit_isDigit (d : Nat) (h : d < 10) :
    (Char.ofNat (48 + d)).isDigit = true := by
  interval_cases d <;> decide

theorem digit_toNat (d : Nat) (h : d < 10) :
    (Char.ofNat (48 + d)).toNat = 48 + d := by
  interval_cases d <;> decide

theorem toDigitsAux_digits (n : Nat) (acc : List Char)
    (h : acc.all Char.isDigit) : (toDigitsAux n acc).all Char.isDigit := by
  match n with
  | 0 => rw [toDigitsAux]; exact h
  | m + 1 =>
    rw [toDigitsAux]
    exact toDigitsAux_digits ((m + 1) / 10) _ (by
      simp only [List.all_cons, h, Bool.and_true]
      exact digit_isDigit _ (Nat.mod_lt _ (by omega)))
  termination_by n
  decreasing_by exact Nat.div_lt_self (Nat.succ_pos m) (by omega)

theorem toDigitsAux_length (n : Nat) (acc : List Char) :
    (toDigitsAux n acc).length = ndlen n + acc.length := by
  match n with
  | 0 => rw [toDigitsAux, ndlen]; omega
  | m + 1 =>
    rw [toDigitsAux, ndlen, toDigitsAux_length ((m + 1) / 10)]
    simp only [List.length_cons]
    omega
  termination_by n
  decreasing_by exact Nat.div_lt_self (Nat.succ_pos m) (by omega)

theorem toDigitsAux_foldl (n : Nat) (acc : List Char) (a : Nat) :
    (toDigitsAux n acc).foldl digitStep a
      = acc.foldl digitStep (a * 10 ^ ndlen n + n) := by
  match n with
  | 0 => rw [toDigitsAux, ndlen]; simp
  | m + 1 =>
    rw [toDigitsAux, ndlen, toDigitsAux_foldl ((m + 1) / 10)]
    simp only [List.foldl_cons]
    congr 1
    rw [digitStep, digit_toNat _ (Nat.mod_lt _ (by omega))]
    have h1 : (a * 10 ^ ndlen ((m + 1) / 10) + (m + 1) / 10) * 10
          + (48 + (m + 1) % 10 - 48)
        = a * 10 ^ ndlen ((m + 1) / 10) * 10
          + ((m + 1) / 10 * 10 + (m + 1) % 10) := by
      omega
    rw [h1, pow_succ, ← mul_assoc]
    congr 1
    omega
  termination_by n
  decreasing_by exact Nat.div_lt_self (Nat.succ_pos m) (by omega)

theorem ndlen_pos (n : Nat) (h : n ≠ 0) : 0 < ndlen n := by
  match n with
  | 0 => exact absurd rfl h
  | m + 1 => rw [ndlen]; omega

theorem stripPlus_digits (l : List Char) (h : l.all Char.isDigit) :
    stripPlus l = l := by
  cases l with
  | nil => rfl
  | cons c rest =>
    have hc : c.isDigit = true := by
      simp only [List.all_cons, Bool.and_eq_true] at h
      exact h.1
    by_cases hplus : c = '+'
    · subst hplus
      exact absurd hc (by decide)
    · unfold stripPlus
      split
      · rename_i heq
        rw [List.cons.injEq] at heq
        exact absurd heq.1 hplus
      · rfl

theorem parseUsize_natToString (n : Nat) (h : n < 2 ^ 64) :
    parseUsize (natToString n) = some n := by
  by_cases h0 : n = 0
  · subst h0
    decide
  · rw [natToString, if_neg h0]
    have hd : (toDigitsAux n []).all Char.isDigit :=
      toDigitsAux_digits n [] (by simp)
    have hne : toDigitsAux n [] ≠ [] := by
      intro hnil
      have hl := toDigitsAux_length n []
      rw [hnil] at hl
      have := ndlen_pos n h0
      simp at hl
      omega
    have hdata : (String.mk (toDigitsAux n [])).data = toDigitsAux n [] := rfl
    rw [parseUsize]
    simp only [hdata, stripPlus_digits _ hd]
    rw [if_pos ⟨hne, hd⟩]
    have hv : (toDigitsAux n []).foldl digitStep 0 = n := by
      rw [toDigitsAux_foldl]
      simp
    simp only [hv]
    rw [if_pos h]

/-! ## Indexing: `get` and `take` (C7, C8, C9) -/

theorem dropLast_set_last (xs : List Ipld) (y : Ipld) :
    (xs.set (xs.length - 1) y).dropLast = xs.dropLast := by
  induction xs with
  | nil => rfl
  | cons x rest ih =>
    cases rest with
    | nil => rfl
    | cons z zs =>
      have hlen : (x :: z :: zs).length - 1 = (z :: zs).length - 1 + 1 := by
        simp
      rw [hlen, List.set_cons_succ]
      have hne : (z :: zs).set ((z :: zs).length - 1) y ≠ [] := by
        intro hc
        have := congrArg List.length hc
        simp at this
      rw [List.dropLast_cons_of_ne_nil hne, List.dropLast_cons_of_ne_nil (by simp), ih]

/-- C7: for every list and in-bounds position `i`, `take(i)` returns the
`i`-th element as an owned value, and the vector `swap_remove` leaves
behind is the original list with its last element relocated into slot `i`
and the length shrunk by one (relative order of the remaining elements is
not preserved). -/
theorem c7_take_swap_remove (l : List Ipld) (i : Nat) (h : i < l.length) :
    Ipld.take (.list l) (.list i) = .ok (l.get ⟨i, h⟩)
      ∧ (swapRemove l i).2
          = (l.set i (l.get ⟨l.length - 1, by omega⟩)).dropLast := by
  have hlast : l.getD (l.length - 1) .null = l.get ⟨l.length - 1, by omega⟩ :=
    List.getD_eq_getElem l .null (by omega)
  constructor
  · simp [Ipld.take, h, swapRemove, List.getD_eq_getElem l .null h]
  · simp only [swapRemove, hlast]
    have hd := dropLast_set_last (l.set i (l.get ⟨l.length - 1, by omega⟩))
      (l.getD i .null)
    rwa [List.length_set] at hd

/-- Witness for C7 at a concrete list and position. -/
theorem c7_take_swap_remove_witness :
    0 < ([.integer 0, .integer 1, .integer 2] : List Ipld).length
      ∧ Ipld.take (.list [.integer 0, .integer 1, .integer 2]) (.list 0)
          = .ok (.integer 0)
      ∧ (swapRemove [.integer 0, .integer 1, .integer 2] 0).2
          = [.integer 2, .integer 1] :=
  ⟨by decide, by
    simpa using c7_take_swap_remove [.integer 0, .integer 1, .integer 2] 0
      (by decide)⟩

/-- C8: on a list of length `n`, `get` with position selector `i` succeeds
exactly when `i < n`, returning the `i`-th element, and otherwise fails
with `TypeError { expected: Index(i), found: List }`. -/
theorem c8_get_list_bounds (l : List Ipld) (i : Nat) :
    (∀ h : i < l.length,
        Ipld.get (.list l) (.list i) = .ok (l.get ⟨i, h⟩))
      ∧ (l.length ≤ i →
          Ipld.get (.list l) (.list i)
            = .error ⟨.index i, .list⟩) := by
  constructor
  · intro h
    simp [Ipld.get, List.getElem?_eq_getElem h]
  · intro h
    simp [Ipld.get, List.getElem?_eq_none h, TypeErrorType.ofIndex,
      TypeErrorType.ofIpld]

/-- Witness for C8 at a concrete list: position 0 is in bounds and
position 1 is out of bounds. -/
theorem c8_get_list_bounds_witness :
    (0 < ([.null] : List Ipld).length
        ∧ Ipld.get (.list [.null]) (.list 0) = .ok .null)
      ∧ (([.null] : List Ipld).length ≤ 1
        ∧ Ipld.get (.list [.null]) (.list 1)
            = .error ⟨.index 1, .list⟩) :=
  ⟨⟨by decide, by simpa using (c8_get_list_bounds [.null] 0).1 (by decide)⟩,
    ⟨by decide, (c8_get_list_bounds [.null] 1).2 (by decide)⟩⟩

/-- C9 counterexample: on the empty list and position 0, the numeric
selector and its decimal-string form do NOT return the same result — both
fail, but the numeric selector reports `expected: Index(0)` while the
string selector reports `expected: Key("0")`. -/
theorem c9_counterexample :
    Ipld.get (.list []) (.list 0) = .error ⟨.index 0, .list⟩
      ∧ Ipld.get (.list []) (.map (natToString 0))
          = .error ⟨.key (natToString 0), .list⟩
      ∧ Ipld.get (.list []) (.list 0)
          ≠ Ipld.get (.list []) (.map (natToString 0)) := by
  refine ⟨rfl, ?_, ?_⟩ <;> simp [Ipld.get, natToString, parseUsize,
    stripPlus, digitStep, TypeErrorType.ofIndex, TypeErrorType.ofIpld]

/-- C9 amended: for every position `i` (as a 64-bit `usize`), the numeric
selector `i` and the decimal-string selector `toString i` agree on every
success — on a list they both return the `i`-th element when `i` is in
bounds, on a string map they both return the value bound to the key
`toString i` when present — and they agree on failure versus success; but
the failure values differ in the `expected` component: `Index(i)` for the
numeric selector against `Key(toString i)` for the string selector. -/
theorem c9_selector_coercion (i : Nat) (hi : i < 2 ^ 64) :
    (∀ l : List Ipld,
        (∀ h : i < l.length,
            Ipld.get (.list l) (.map (natToString i)) = .ok (l.get ⟨i, h⟩)
              ∧ Ipld.get (.list l) (.list i) = .ok (l.get ⟨i, h⟩))
          ∧ (l.length ≤ i →
              Ipld.get (.list l) (.list i) = .error ⟨.index i, .list⟩
                ∧ Ipld.get (.list l) (.map (natToString i))
                    = .error ⟨.key (natToString i), .list⟩))
      ∧ (∀ m : List (String × Ipld),
          (∀ v, mapGet m (natToString i) = some v →
              Ipld.get (.stringMap m) (.list i) = .ok v
                ∧ Ipld.get (.stringMap m) (.map (natToString i)) = .ok v)
            ∧ (mapGet m (natToString i) = none →
                Ipld.get (.stringMap m) (.list i)
                    = .error ⟨.index i, .stringMap⟩
                  ∧ Ipld.get (.stringMap m) (.map (natToString i))
                      = .error ⟨.key (natToString i), .stringMap⟩)) := by
  have hp := parseUsize_natToString i hi
  refine ⟨fun l => ⟨fun h => ⟨?_, ?_⟩, fun h => ⟨?_, ?_⟩⟩,
    fun m => ⟨fun v hv => ⟨?_, ?_⟩, fun hv => ⟨?_, ?_⟩⟩⟩
  · simp [Ipld.get, hp, List.getElem?_eq_getElem h]
  · simp [Ipld.get, List.getElem?_eq_getElem h]
  · simp [Ipld.get, List.getElem?_eq_none h, TypeErrorType.ofIndex,
      TypeErrorType.ofIpld]
  · simp [Ipld.get, hp, List.getElem?_eq_none h, TypeErrorType.ofIndex,
      TypeErrorType.ofIpld]
  · simp [Ipld.get, hv]
  · simp [Ipld.get, hp, hv]
  · simp [Ipld.get, hv, TypeErrorType.ofIndex, TypeErrorType.ofIpld]
  · simp [Ipld.get, hp, hv, TypeErrorType.ofIndex, TypeErrorType.ofIpld]

/-- Witness for C9 amended at `i = 0` on a one-element list and a
one-binding map. -/
theorem c9_selector_coercion_witness :
    0 < 2 ^ 64
      ∧ (Ipld.get (.list [.bool true]) (.map (natToString 0))
            = .ok (.bool true)
          ∧ Ipld.get (.list [.bool true]) (.list 0) = .ok (.bool true))
      ∧ (Ipld.get (.stringMap [("0", .bool true)]) (.list 0)
            = .ok (.bool true)
          ∧ Ipld.get (.stringMap [("0", .bool true)]) (.map (natToString 0))
            = .ok (.bool true)) := by
  refine ⟨by norm_num, ?_, ?_⟩
  · simpa using
      ((c9_selector_coercion 0 (by norm_num)).1 [.bool true]).1 (by decide)
  · simpa using
      ((c9_selector_coercion 0 (by norm_num)).2 [("0", .bool true)]).1
        (.bool true) (by rfl)

/-! ## Codec: generic value round trip -/

theorem decIpldList_zero (r : List Tok) : decIpldList 0 r = .ok ([], r) := by
  simp [decIpldList, decodeIpldListT, Except.map]

theorem decIpldList_succ (n : Nat) (r : List Tok) :
    decIpldList (n + 1) r
      = match decIpld r with
        | .error e => .error e
        | .ok (v, r') =>
          match decIpldList n r' with
          | .error e => .error e
          | .ok (vs, r'') => .ok (v :: vs, r'') := by
  cases hD1 : decodeIpldT r with
  | error e =>
    simp [decIpldList, decIpld, decodeIpldListT, hD1, Except.map]
  | ok p =>
    obtain ⟨⟨v, r'⟩, hlen1⟩ := p
    cases hD2 : decodeIpldListT n r' with
    | error e =>
      simp [decIpldList, decIpld, decodeIpldListT, hD1, hD2, Except.map]
    | ok q =>
      obtain ⟨⟨vs, r''⟩, hlen2⟩ := q
      simp [decIpldList, decIpld, decodeIpldListT, hD1, hD2, Except.map]

theorem decIpldMap_zero (r : List Tok) : decIpldMap 0 r = .ok ([], r) := by
  simp [decIpldMap, decodeIpldMapT, Except.map]

theorem decIpldMap_succ_cons (n : Nat) (k : String) (r' : List Tok) :
    decIpldMap (n + 1) (.strT k :: r')
      = match decIpld r' with
        | .error e => .error e
        | .ok (v, r'') =>
          match decIpldMap n r'' with
          | .error e => .error e
          | .ok (m, r''') => .ok ((k, v) :: m, r''') := by
  cases hD1 : decodeIpldT r' with
  | error e =>
    simp [decIpldMap, decIpld, decodeIpldMapT, hD1, Except.map]
  | ok p =>
    obtain ⟨⟨v, r''⟩, hlen1⟩ := p
    cases hD2 : decodeIpldMapT n r'' with
    | error e =>
      simp [decIpldMap, decIpld, decodeIpldMapT, hD1, hD2, Except.map]
    | ok q =>
      obtain ⟨⟨m, r'''⟩, hlen2⟩ := q
      simp [decIpldMap, decIpld, decodeIpldMapT, hD1, hD2, Except.map]

theorem decIpld_header4 (n : Nat) (r : List Tok) :
    decIpld (.header 4 n :: r)
      = match decIpldList n r with
        | .error e => .error e
        | .ok (l, r') => .ok (.list l, r') := by
  cases hD : decodeIpldListT n r with
  | error e => simp [decIpld, decIpldList, decodeIpldT, hD, Except.map]
  | ok p =>
    obtain ⟨⟨l, r'⟩, hlen⟩ := p
    simp [decIpld, decIpldList, decodeIpldT, hD, Except.map]

theorem decIpld_header5 (n : Nat) (r : List Tok) :
    decIpld (.header 5 n :: r)
      = match decIpldMap n r with
        | .error e => .error e
        | .ok (m, r') => .ok (.stringMap m, r') := by
  cases hD : decodeIpldMapT n r with
  | error e => simp [decIpld, decIpldMap, decodeIpldT, hD, Except.map]
  | ok p =>
    obtain ⟨⟨m, r'⟩, hlen⟩ := p
    simp [decIpld, decIpldMap, decodeIpldT, hD, Except.map]

mutual

/-- Decoding the encoding of a value consumes exactly the encoding and
returns the value. -/
theorem decIpld_enc (v : Ipld) (rest : List Tok) :
    decIpld (encodeIpld v ++ rest) = .ok (v, rest) := by
  cases v with
  | null => simp [encodeIpld, decIpld, decodeIpldT, Except.map]
  | bool b => simp [encodeIpld, decIpld, decodeIpldT, Except.map]
  | integer i => simp [encodeIpld, decIpld, decodeIpldT, Except.map]
  | float bits => simp [encodeIpld, decIpld, decodeIpldT, Except.map]
  | str s => simp [encodeIpld, decIpld, decodeIpldT, Except.map]
  | bytes bs => simp [encodeIpld, decIpld, decodeIpldT, Except.map]
  | link c => simp [encodeIpld, decIpld, decodeIpldT, Except.map]
  | list l =>
    have ih := decList_enc l rest
    simp only [encodeIpld, List.cons_append]
    rw [decIpld_header4, ih]
  | stringMap m =>
    have ih := decMap_enc m rest
    simp only [encodeIpld, List.cons_append]
    rw [decIpld_header5, ih]
  termination_by sizeOf v

/-- Decoding `l.length` items from the encoding of the elements of `l`
consumes exactly those tokens and returns the elements. -/
theorem decList_enc (l : List Ipld) (rest : List Tok) :
    decIpldList l.length (encodeIpldL l ++ rest) = .ok (l, rest) := by
  cases l with
  | nil => simp [encodeIpldL, decIpldList_zero]
  | cons v vs =>
    have ih1 := decIpld_enc v (encodeIpldL vs ++ rest)
    have ih2 := decList_enc vs rest
    simp only [encodeIpldL, List.length_cons, List.append_assoc]
    rw [decIpldList_succ, ih1]
    simp [ih2]
  termination_by sizeOf l

/-- Decoding `m.length` bindings from the encoding of the bindings of `m`
consumes exactly those tokens and returns the bindings. -/
theorem decMap_enc (m : List (String × Ipld)) (rest : List Tok) :
    decIpldMap m.length (encodeIpldM m ++ rest) = .ok (m, rest) := by
  cases m with
  | nil => simp [encodeIpldM, decIpldMap_zero]
  | cons kv tl =>
    obtain ⟨k, v⟩ := kv
    have ih1 := decIpld_enc v (encodeIpldM tl ++ rest)
    have ih2 := decMap_enc tl rest
    simp only [encodeIpldM, List.length_cons, List.cons_append,
      List.append_assoc]
    rw [decIpldMap_succ_cons, ih1]
    simp [ih2]
  termination_by sizeOf m

end

/-! ## Codec: record probes on their own encodings -/

theorem encodeIpld_ne_nil (v : Ipld) : encodeIpld v ≠ [] := by
  cases v <;> simp [encodeIpld]

/-- The generic-value probe accepts the leading marker of any encoded value
and consumes exactly its encoding. -/
theorem tryReadIpld_enc (v : Ipld) (rest : List Tok) (t : Tok)
    (body : List Tok) (henc : encodeIpld v = t :: body) :
    tryReadIpld t (body ++ rest) = .ok (some (v, rest)) := by
  have hdec := decIpld_enc v rest
  rw [henc] at hdec
  simp only [List.cons_append, List.nil_append] at hdec
  cases v <;>
    simp only [encodeIpld, List.cons.injEq] at henc <;>
    obtain ⟨h1, h2⟩ := henc <;>
    subst h1 <;> subst h2 <;>
    (try simp only [List.nil_append] at hdec) <;>
    simp [tryReadIpld, hdec, Except.map]

theorem elide_none (f : Libipld.Field) (v : Ipld) (h : f.default = none) :
    elide f v = false := by
  simp [elide, h]

/-- The keyed field loop of the `Map` decode consumes exactly the encoded
fields, when no field declares a default. -/
theorem readMapFields_enc (fields : List Libipld.Field) (vals : List Ipld)
    (rest : List Tok) (hlen : vals.length = fields.length)
    (hnd : ∀ f ∈ fields, f.default = none) :
    readMapFields fields (encodeMapFields fields vals ++ rest)
      = .ok (vals, rest) := by
  induction fields generalizing vals rest with
  | nil =>
    cases vals with
    | nil => simp [encodeMapFields, readMapFields]
    | cons v vs => simp at hlen
  | cons f fs ih =>
    cases vals with
    | nil => simp at hlen
    | cons v vs =>
      have hnf : f.default = none := hnd f (by simp)
      have hel : elide f v = false := elide_none f v hnf
      simp only [encodeMapFields, hel, Bool.false_eq_true, if_false,
        List.cons_append, List.append_assoc]
      rw [readMapFields]
      simp only [readKey, if_pos rfl, if_true]
      rw [decIpld_enc v (encodeMapFields fs vs ++ rest)]
      simp [ih vs rest (by simpa using hlen) (fun g hg => hnd g (by simp [hg]))]

/-- The positional field loop of the `Tuple` decode consumes exactly the
encoded fields, when no field declares a default. -/
theorem readTupleFields_enc (fields : List Libipld.Field) (vals : List Ipld)
    (rest : List Tok) (hlen : vals.length = fields.length)
    (hnd : ∀ f ∈ fields, f.default = none) :
    readTupleFields fields (encodeTupleFields fields vals ++ rest)
      = .ok (vals, rest) := by
  induction fields generalizing vals rest with
  | nil =>
    cases vals with
    | nil => simp [encodeTupleFields, readTupleFields]
    | cons v vs => simp at hlen
  | cons f fs ih =>
    cases vals with
    | nil => simp at hlen
    | cons v vs =>
      have hel : elide f v = false := elide_none f v (hnd f (by simp))
      simp only [encodeTupleFields, hel, Bool.false_eq_true, if_false,
        List.append_assoc]
      rw [readTupleFields]
      rw [decIpld_enc v (encodeTupleFields fs vs ++ rest)]
      simp [ih vs rest (by simpa using hlen) (fun g hg => hnd g (by simp [hg]))]

/-- A record probe run against the record's own encoding (with no defaults
declared and the generation-time arity conditions satisfied) matches and
consumes exactly the encoding. -/
theorem tryReadStructStream_enc (s : Struct) (vals : List Ipld)
    (rest : List Tok) (hnd : noDefaults s) (ha : arityOk s vals) :
    tryReadStructStream s (encodeStructBody s vals ++ rest)
      = .ok (some (vals, rest)) := by
  obtain ⟨hlen, hval, hnull⟩ := ha
  cases hrepr : s.repr with
  | map =>
    simp only [encodeStructBody, hrepr, List.cons_append]
    rw [tryReadStructStream]
    simp only [tryReadStruct, hrepr]
    rw [if_neg (by omega)]
    rw [readMapFields_enc s.fields vals rest hlen hnd]
  | tuple =>
    simp only [encodeStructBody, hrepr, List.cons_append]
    rw [tryReadStructStream]
    simp only [tryReadStruct, hrepr]
    rw [if_neg (by omega)]
    rw [readTupleFields_enc s.fields vals rest hlen hnd]
  | value =>
    obtain ⟨f, hf⟩ := List.length_eq_one.mp (hval hrepr)
    obtain ⟨v, hv⟩ := List.length_eq_one.mp
      (by rw [hlen, hval hrepr] : vals.length = 1)
    subst hv
    have hel : elide f v = false :=
      elide_none f v (hnd f (by simp [hf]))
    simp only [encodeStructBody, hrepr, hf, hel, Bool.false_eq_true, if_false]
    cases henc : encodeIpld v with
    | nil => exact absurd henc (encodeIpld_ne_nil v)
    | cons t body =>
      simp only [List.cons_append]
      rw [tryReadStructStream]
      simp only [tryReadStruct, hrepr]
      rw [tryReadIpld_enc v rest t body henc]
  | null =>
    have hfields : s.fields = [] := List.length_eq_zero.mp (hnull hrepr)
    have hvals : vals = [] := List.length_eq_zero.mp (by rw [hlen, hnull hrepr])
    subst hvals
    simp [encodeStructBody, hrepr, tryReadStructStream, tryReadStruct]

/-- `decode(encode(x))` for a derived record with no defaults: the full
decode returns exactly the encoded field values. -/
theorem readStruct_enc (s : Struct) (vals : List Ipld) (rest : List Tok)
    (hnd : noDefaults s) (ha : arityOk s vals) :
    readStruct s (encodeStructBody s vals ++ rest) = .ok (vals, rest) := by
  have h := tryReadStructStream_enc s vals rest hnd ha
  cases hE : encodeStructBody s vals ++ rest with
  | nil => rw [hE] at h; simp [tryReadStructStream] at h
  | cons t r' =>
    rw [hE] at h
    rw [tryReadStructStream] at h
    rw [readStruct, h]

/-! ## Codec: union variant scans -/

theorem keyedGo_skip (pre rest : List Struct) (idx : Nat) (key : String)
    (r : List Tok) (hpre : ∀ s ∈ pre, variantKey s ≠ key) :
    keyedGo (pre ++ rest) idx key r = keyedGo rest (idx + pre.length) key r := by
  induction pre generalizing idx with
  | nil => simp
  | cons s pre' ih =>
    have hs : variantKey s ≠ key := hpre s (by simp)
    have hidx : idx + (s :: pre').length = (idx + 1) + pre'.length := by
      simp
      omega
    rw [List.cons_append, hidx, ← ih (idx + 1) (fun x hx => hpre x (by simp [hx]))]
    simp [keyedGo, hs]

theorem keyedGo_match (s : Struct) (post : List Struct) (idx : Nat)
    (key : String) (r : List Tok) (vals : List Ipld) (r' : List Tok)
    (hkey : variantKey s = key)
    (hprobe : tryReadStructStream s r = .ok (some (vals, r'))) :
    keyedGo (s :: post) idx key r = .ok (some ((idx, vals), r')) := by
  cases r with
  | nil => simp [tryReadStructStream] at hprobe
  | cons t r2 =>
    rw [tryReadStructStream] at hprobe
    simp [keyedGo, hkey, hprobe]

theorem keyedGo_nomatch (variants : List Struct) (idx : Nat) (key : String)
    (r : List Tok) (h : ∀ s ∈ variants, variantKey s ≠ key) :
    keyedGo variants idx key r = .error (.typeError ⟨.key key, .null⟩) := by
  induction variants generalizing idx with
  | nil => rfl
  | cons s rest ih =>
    have hs : variantKey s ≠ key := h s (by simp)
    simp only [keyedGo, if_neg hs]
    exact ih (idx + 1) (fun x hx => h x (by simp [hx]))

theorem kindedGo_skip (pre rest : List Struct) (idx : Nat) (t : Tok)
    (r : List Tok) (hpre : ∀ s ∈ pre, tryReadStruct s t r = .ok none) :
    kindedGo (pre ++ rest) idx t r = kindedGo rest (idx + pre.length) t r := by
  induction pre generalizing idx with
  | nil => simp
  | cons s pre' ih =>
    have hidx : idx + (s :: pre').length = (idx + 1) + pre'.length := by
      simp
      omega
    rw [List.cons_append, hidx, ← ih (idx + 1) (fun x hx => hpre x (by simp [hx]))]
    simp [kindedGo, hpre s (by simp)]

theorem kindedGo_match (s : Struct) (post : List Struct) (idx : Nat)
    (t : Tok) (r : List Tok) (vals : List Ipld) (r' : List Tok)
    (hprobe : tryReadStruct s t r = .ok (some (vals, r'))) :
    kindedGo (s :: post) idx t r = .ok (some ((idx, vals), r')) := by
  simp [kindedGo, hprobe]

theorem kindedGo_exhaust (variants : List Struct) (idx : Nat) (t : Tok)
    (r : List Tok) (h : ∀ s ∈ variants, tryReadStruct s t r = .ok none) :
    kindedGo variants idx t r = .error (.typeError ⟨.null, .null⟩) := by
  induction variants generalizing idx with
  | nil => rfl
  | cons s rest ih =>
    simp only [kindedGo, h s (by simp)]
    exact ih (idx + 1) (fun x hx => h x (by simp [hx]))

theorem stringGo_find (pre : List Struct) (s : Struct) (post : List Struct)
    (idx : Nat) (key : String) (hpre : ∀ x ∈ pre, variantKey x ≠ key)
    (hkey : variantKey s = key) :
    stringGo (pre ++ s :: post) idx key = some (idx + pre.length) := by
  induction pre generalizing idx with
  | nil => simp [stringGo, hkey]
  | cons x pre' ih =>
    have hidx : idx + (x :: pre').length = (idx + 1) + pre'.length := by
      simp
      omega
    rw [List.cons_append, hidx, ← ih (idx + 1) (fun y hy => hpre y (by simp [hy]))]
    simp [stringGo, hpre x (by simp)]

theorem stringGo_none (variants : List Struct) (idx : Nat) (key : String)
    (h : ∀ x ∈ variants, variantKey x ≠ key) :
    stringGo variants idx key = none := by
  induction variants generalizing idx with
  | nil => rfl
  | cons x rest ih =>
    simp only [stringGo, if_neg (h x (by simp))]
    exact ih (idx + 1) (fun y hy => h y (by simp [hy]))

theorem intGo_find (pre : List Struct) (s : Struct) (post : List Struct)
    (idx : Nat) (key : Nat) (hpre : ∀ x ∈ pre, x.ord ≠ key)
    (hkey : s.ord = key) :
    intGo (pre ++ s :: post) idx key = some (idx + pre.length) := by
  induction pre generalizing idx with
  | nil => simp [intGo, hkey]
  | cons x pre' ih =>
    have hidx : idx + (x :: pre').length = (idx + 1) + pre'.length := by
      simp
      omega
    rw [List.cons_append, hidx, ← ih (idx + 1) (fun y hy => hpre y (by simp [hy]))]
    simp [intGo, hpre x (by simp)]

theorem intGo_none (variants : List Struct) (idx : Nat) (key : Nat)
    (h : ∀ x ∈ variants, x.ord ≠ key) :
    intGo variants idx key = none := by
  induction variants generalizing idx with
  | nil => rfl
  | cons x rest ih =>
    simp only [intGo, if_neg (h x (by simp))]
    exact ih (idx + 1) (fun y hy => h y (by simp [hy]))

/-- The body a record encoder emits is never empty when no field is elided
(no defaults declared and the arity conditions hold). -/
theorem encodeStructBody_ne_nil (s : Struct) (vals : List Ipld)
    (hnd : noDefaults s) (ha : arityOk s vals) :
    encodeStructBody s vals ≠ [] := by
  obtain ⟨hlen, hval, _hnull⟩ := ha
  cases hrepr : s.repr with
  | map => simp [encodeStructBody, hrepr]
  | tuple => simp [encodeStructBody, hrepr]
  | value =>
    obtain ⟨f, hf⟩ := List.length_eq_one.mp (hval hrepr)
    obtain ⟨v, hv⟩ := List.length_eq_one.mp
      (by rw [hlen, hval hrepr] : vals.length = 1)
    subst hv
    have hel : elide f v = false := elide_none f v (hnd f (by simp [hf]))
    simp [encodeStructBody, hrepr, hf, hel, encodeIpld_ne_nil]
  | null => simp [encodeStructBody, hrepr]

theorem variants_getElem (pre : List Struct) (s : Struct)
    (post : List Struct) : (pre ++ s :: post)[pre.length]? = some s := by
  rw [List.getElem?_append_right (Nat.le_refl _)]
  simp

/-! ## Claims C1–C5, C10: the codec contract -/

/-- C1 counterexample: round trip fails as universally stated.  A `Kinded`
union whose first two declared variants both accept the same shape (here
two `Value`-representation variants) decodes the encoding of the second
variant back to the *first* variant: `decode(encode(x)) ≠ x` for
`x = (variant 1, [true])`. -/
theorem c1_counterexample :
    readUnion
        ⟨"K", [⟨"B0", none, 0, [⟨"0", none, none⟩], .value⟩,
          ⟨"B1", none, 1, [⟨"0", none, none⟩], .value⟩], .kinded⟩
        (encodeUnion
          ⟨"K", [⟨"B0", none, 0, [⟨"0", none, none⟩], .value⟩,
            ⟨"B1", none, 1, [⟨"0", none, none⟩], .value⟩], .kinded⟩
          1 [.bool true])
        = .ok ((0, [.bool true]), [])
      ∧ (((0, [Ipld.bool true]), ([] : List Tok)) : (Nat × List Ipld) × List Tok)
          ≠ ((1, [Ipld.bool true]), []) := by
  constructor
  · simp [encodeUnion, encodeStructBody, elide, encodeIpld, readUnion,
      tryReadUnion, kindedGo, tryReadStruct, tryReadIpld, decIpld,
      decodeIpldT, Except.map]
  · simp

/-- C1 amended: `decode(encode(x)) = x` holds for every record
representation provided no field declares a default, and for every union
representation provided additionally that the chosen variant is not
shadowed by an earlier declared variant — an earlier variant with the same
key (`Keyed`), an earlier variant whose probe accepts the same leading
shape (`Kinded`, the spec's generation-time distinct-shapes obligation),
or an earlier variant with the same name or ordinal (`String`/`Int`). -/
theorem c1_roundtrip_amended :
    (∀ (s : Struct) (vals : List Ipld) (rest : List Tok),
        noDefaults s → arityOk s vals →
        readStruct s (encodeStructBody s vals ++ rest) = .ok (vals, rest))
      ∧ (∀ (u : Union) (pre : List Struct) (s : Struct) (post : List Struct)
            (vals : List Ipld) (rest : List Tok),
          u.repr = .keyed → u.variants = pre ++ s :: post →
          (∀ x ∈ pre, variantKey x ≠ variantKey s) →
          noDefaults s → arityOk s vals →
          readUnion u (encodeUnion u pre.length vals ++ rest)
            = .ok ((pre.length, vals), rest))
      ∧ (∀ (u : Union) (pre : List Struct) (s : Struct) (post : List Struct)
            (vals : List Ipld) (rest : List Tok),
          u.repr = .kinded → u.variants = pre ++ s :: post →
          (∀ x ∈ pre,
            tryReadStructStream x (encodeStructBody s vals ++ rest) = .ok none) →
          noDefaults s → arityOk s vals →
          readUnion u (encodeUnion u pre.length vals ++ rest)
            = .ok ((pre.length, vals), rest))
      ∧ (∀ (u : Union) (pre : List Struct) (s : Struct) (post : List Struct)
            (vals : List Ipld) (rest : List Tok),
          u.repr = .string → u.variants = pre ++ s :: post →
          (∀ x ∈ pre, variantKey x ≠ variantKey s) →
          s.repr = .null → arityOk s vals →
          readUnion u (encodeUnion u pre.length vals ++ rest)
            = .ok ((pre.length, vals), rest))
      ∧ (∀ (u : Union) (pre : List Struct) (s : Struct) (post : List Struct)
            (vals : List Ipld) (rest : List Tok),
          u.repr = .int → u.variants = pre ++ s :: post →
          (∀ x ∈ pre, x.ord ≠ s.ord) → s.ord < 2 ^ 64 →
          s.repr = .null → arityOk s vals →
          readUnion u (encodeUnion u pre.length vals ++ rest)
            = .ok ((pre.length, vals), rest)) := by
  refine ⟨readStruct_enc, ?_, ?_, ?_, ?_⟩
  · intro u pre s post vals rest hrepr hvar hpre hnd ha
    obtain ⟨un, uv, ur⟩ := u
    simp only at hrepr hvar
    subst hrepr
    subst hvar
    have henc : encodeUnion ⟨un, pre ++ s :: post, .keyed⟩ pre.length vals
        = .header 5 1 :: .strT (variantKey s) :: encodeStructBody s vals := by
      simp only [encodeUnion]
      rw [variants_getElem]
    rw [henc]
    simp only [List.cons_append]
    have hTRU : tryReadUnion ⟨un, pre ++ s :: post, .keyed⟩ (.header 5 1)
        (.strT (variantKey s) :: (encodeStructBody s vals ++ rest))
        = .ok (some ((pre.length, vals), rest)) := by
      rw [tryReadUnion]
      dsimp only
      rw [tryReadUnionKeyed]
      rw [if_neg (by simp)]
      rw [decodeStrTok]
      dsimp only
      rw [keyedGo_skip pre (s :: post) 0 (variantKey s) _ hpre]
      simp only [Nat.zero_add]
      exact keyedGo_match s post pre.length (variantKey s) _ vals rest rfl
        (tryReadStructStream_enc s vals rest hnd ha)
    rw [readUnion, hTRU]
  · intro u pre s post vals rest hrepr hvar hpre hnd ha
    obtain ⟨un, uv, ur⟩ := u
    simp only at hrepr hvar
    subst hrepr
    subst hvar
    have henc : encodeUnion ⟨un, pre ++ s :: post, .kinded⟩ pre.length vals
        = encodeStructBody s vals := by
      simp only [encodeUnion]
      rw [variants_getElem]
    have hstream := tryReadStructStream_enc s vals rest hnd ha
    cases hbody : encodeStructBody s vals with
    | nil => exact absurd hbody (encodeStructBody_ne_nil s vals hnd ha)
    | cons t r2 =>
      rw [hbody] at hstream
      rw [List.cons_append, tryReadStructStream] at hstream
      rw [henc, hbody]
      simp only [List.cons_append]
      have hTRU : tryReadUnion ⟨un, pre ++ s :: post, .kinded⟩ t (r2 ++ rest)
          = .ok (some ((pre.length, vals), rest)) := by
        rw [tryReadUnion]
        dsimp only
        rw [kindedGo_skip pre (s :: post) 0 t (r2 ++ rest)
          (fun x hx => by
            have := hpre x hx
            rw [hbody, List.cons_append, tryReadStructStream] at this
            exact this)]
        simp only [Nat.zero_add]
        exact kindedGo_match s post pre.length t (r2 ++ rest) vals rest hstream
      rw [readUnion, hTRU]
  · intro u pre s post vals rest hrepr hvar hpre hsnull ha
    obtain ⟨un, uv, ur⟩ := u
    simp only at hrepr hvar
    subst hrepr
    subst hvar
    obtain ⟨hlen, _hval, hnull⟩ := ha
    have hvals : vals = [] :=
      List.length_eq_zero.mp (by rw [hlen, hnull hsnull])
    subst hvals
    have henc : encodeUnion ⟨un, pre ++ s :: post, .string⟩ pre.length
          ([] : List Ipld)
        = [.strT (variantKey s)] := by
      simp only [encodeUnion]
      rw [variants_getElem]
    rw [henc]
    simp only [List.cons_append, List.nil_append]
    have hTRU : tryReadUnion ⟨un, pre ++ s :: post, .string⟩
          (.strT (variantKey s)) rest
        = .ok (some ((pre.length, []), rest)) := by
      rw [tryReadUnion]
      dsimp only
      rw [tryReadUnionString]
      rw [tryReadString]
      dsimp only
      rw [stringGo_find pre s post 0 (variantKey s) hpre rfl]
      simp
    rw [readUnion, hTRU]
  · intro u pre s post vals rest hrepr hvar hpre hord hsnull ha
    obtain ⟨un, uv, ur⟩ := u
    simp only at hrepr hvar
    subst hrepr
    subst hvar
    obtain ⟨hlen, _hval, hnull⟩ := ha
    have hvals : vals = [] :=
      List.length_eq_zero.mp (by rw [hlen, hnull hsnull])
    subst hvals
    have henc : encodeUnion ⟨un, pre ++ s :: post, .int⟩ pre.length
          ([] : List Ipld)
        = [.intT (s.ord : Int)] := by
      simp only [encodeUnion]
      rw [variants_getElem]
    rw [henc]
    simp only [List.cons_append, List.nil_append]
    have hTRU : tryReadUnion ⟨un, pre ++ s :: post, .int⟩
          (.intT (s.ord : Int)) rest
        = .ok (some ((pre.length, []), rest)) := by
      rw [tryReadUnion]
      dsimp only
      rw [tryReadUnionInt]
      rw [tryReadU64]
      rw [if_pos ⟨Int.natCast_nonneg _, by exact_mod_cast hord⟩]
      rw [Int.toNat_natCast]
      dsimp only
      rw [intGo_find pre s post 0 s.ord hpre rfl]
      simp
    rw [readUnion, hTRU]

/-- Witness for C1 amended: one concrete record (the spec's `hashAlg`
rename scenario) and one concrete variant of each union representation. -/
theorem c1_roundtrip_amended_witness :
    (noDefaults ⟨"RenameFields", none, 0,
          [⟨"hash_alg", some "hashAlg", none⟩], .map⟩
        ∧ arityOk ⟨"RenameFields", none, 0,
            [⟨"hash_alg", some "hashAlg", none⟩], .map⟩ [.str "murmur3"]
        ∧ readStruct ⟨"RenameFields", none, 0,
              [⟨"hash_alg", some "hashAlg", none⟩], .map⟩
            (encodeStructBody ⟨"RenameFields", none, 0,
              [⟨"hash_alg", some "hashAlg", none⟩], .map⟩ [.str "murmur3"] ++ [])
          = .ok ([.str "murmur3"], []))
      ∧ readUnion ⟨"U", [⟨"A", none, 0, [], .null⟩], .keyed⟩
            (encodeUnion ⟨"U", [⟨"A", none, 0, [], .null⟩], .keyed⟩ 0 [] ++ [])
          = .ok ((0, []), [])
      ∧ readUnion ⟨"U", [⟨"A", none, 0, [], .null⟩], .kinded⟩
            (encodeUnion ⟨"U", [⟨"A", none, 0, [], .null⟩], .kinded⟩ 0 [] ++ [])
          = .ok ((0, []), [])
      ∧ readUnion ⟨"U", [⟨"A", none, 0, [], .null⟩], .string⟩
            (encodeUnion ⟨"U", [⟨"A", none, 0, [], .null⟩], .string⟩ 0 [] ++ [])
          = .ok ((0, []), [])
      ∧ readUnion ⟨"U", [⟨"A", none, 0, [], .null⟩], .int⟩
            (encodeUnion ⟨"U", [⟨"A", none, 0, [], .null⟩], .int⟩ 0 [] ++ [])
          = .ok ((0, []), []) := by
  have hnd : noDefaults ⟨"RenameFields", none, 0,
      [⟨"hash_alg", some "hashAlg", none⟩], .map⟩ := by
    intro f hf
    simp at hf
    subst hf
    rfl
  have hndA : noDefaults ⟨"A", none, 0, [], .null⟩ := by
    intro f hf
    simp at hf
  have haA : arityOk ⟨"A", none, 0, [], .null⟩ [] :=
    ⟨rfl, fun h => by simp at h, fun _ => rfl⟩
  have ha : arityOk ⟨"RenameFields", none, 0,
      [⟨"hash_alg", some "hashAlg", none⟩], .map⟩ [.str "murmur3"] := by
    refine ⟨rfl, ?_, ?_⟩ <;> intro h <;> simp at h
  refine ⟨⟨hnd, ha, c1_roundtrip_amended.1 _ _ _ hnd ha⟩, ?_, ?_, ?_, ?_⟩
  · exact c1_roundtrip_amended.2.1 _ [] _ [] [] [] rfl rfl
      (by intro x hx; simp at hx) hndA haA
  · exact c1_roundtrip_amended.2.2.1 _ [] _ [] [] [] rfl rfl
      (by intro x hx; simp at hx) hndA haA
  · exact c1_roundtrip_amended.2.2.2.1 _ [] _ [] [] [] rfl rfl
      (by intro x hx; simp at hx) rfl haA
  · exact c1_roundtrip_amended.2.2.2.2 _ [] _ [] [] [] rfl rfl
      (by intro x hx; simp at hx) (by norm_num) rfl haA

/-- C2: the `Map` encoder writes the map header before elision, using the
declared field count.  At a record with one defaulted field whose value
equals the default, the emitted wire is a map header announcing one entry
followed by no entries — invalid framing — and the codec's own decoder
fails on it: `decode(encode(x))` errors.  The spec requires the header to
be computed from the post-elision field set; the code writes
`write_u64(w, 5, fields.len())` first (`gen_encode_struct_body`), so the
code, not the claim, is wrong. -/
theorem c2_header_ignores_elision :
    encodeStructBody
        ⟨"S", none, 0, [⟨"a", none, some (.integer 0)⟩], .map⟩ [.integer 0]
      = [.header 5 1]
      ∧ readStruct ⟨"S", none, 0, [⟨"a", none, some (.integer 0)⟩], .map⟩
          [.header 5 1]
        = .error .unexpectedEof := by
  constructor
  · simp [encodeStructBody, encodeMapFields, elide, ipldBeq]
  · simp [readStruct, tryReadStruct, readMapFields, readKey]

/-- C3 counterexample: the kinded-union exhaustion error and the
fixed-arity length mismatch error carry no offending datum — two different
offending inputs produce identical error values, so no caller can recover
the datum from them.  The kinded exhaustion is always
`TypeError { expected: Null, found: Null }` and the length mismatch is the
payload-free `LengthOutOfRange` unit struct. -/
theorem c3_counterexample :
    (readUnion ⟨"U", [⟨"A", none, 0, [], .null⟩], .kinded⟩ [.boolT true]
        = .error (.typeError ⟨.null, .null⟩)
      ∧ readUnion ⟨"U", [⟨"A", none, 0, [], .null⟩], .kinded⟩ [.intT 7]
        = .error (.typeError ⟨.null, .null⟩))
      ∧ (tryReadStruct ⟨"T", none, 0, [], .tuple⟩ (.header 4 2) []
          = .error .lengthOutOfRange
        ∧ tryReadStruct ⟨"T", none, 0, [], .tuple⟩ (.header 4 9) []
          = .error .lengthOutOfRange) := by
  refine ⟨⟨?_, ?_⟩, ?_, ?_⟩ <;>
    simp [readUnion, tryReadUnion, kindedGo, tryReadStruct]

/-- C3 amended: the `Keyed`, `String` and `Int` union dispatch failures do
carry the offending key or discriminant, as `TypeErrorType.Key` holding
the key string, the unmatched name, or the decimal rendering of the
unmatched ordinal; but the `Kinded`-union exhaustion error carries only
`TypeError { expected: Null, found: Null }` and the fixed-arity length
mismatch carries nothing (`LengthOutOfRange` has no payload), so those two
fatal errors do not carry the offending datum. -/
theorem c3_error_payloads :
    (∀ (variants : List Struct) (idx : Nat) (key : String) (r : List Tok),
        (∀ s ∈ variants, variantKey s ≠ key) →
        keyedGo variants idx key r = .error (.typeError ⟨.key key, .null⟩))
      ∧ (∀ (variants : List Struct) (t : Tok) (r : List Tok) (key : String)
            (r' : List Tok),
          tryReadString t r = .ok (some (key, r')) →
          (∀ x ∈ variants, variantKey x ≠ key) →
          tryReadUnionString variants t r
            = .error (.typeError ⟨.key key, .null⟩))
      ∧ (∀ (variants : List Struct) (t : Tok) (r : List Tok) (key : Nat)
            (r' : List Tok),
          tryReadU64 t r = .ok (some (key, r')) →
          (∀ x ∈ variants, x.ord ≠ key) →
          tryReadUnionInt variants t r
            = .error (.typeError ⟨.key (natToString key), .null⟩))
      ∧ (∀ (variants : List Struct) (idx : Nat) (t : Tok) (r : List Tok),
          (∀ s ∈ variants, tryReadStruct s t r = .ok none) →
          kindedGo variants idx t r = .error (.typeError ⟨.null, .null⟩))
      ∧ (∀ (s : Struct) (r : List Tok) (len : Nat), s.repr = .map →
          len ≠ s.fields.length →
          tryReadStruct s (.header 5 len) r = .error .lengthOutOfRange)
      ∧ (∀ (s : Struct) (r : List Tok) (len : Nat), s.repr = .tuple →
          len ≠ s.fields.length →
          tryReadStruct s (.header 4 len) r = .error .lengthOutOfRange) := by
  refine ⟨keyedGo_nomatch, ?_, ?_, kindedGo_exhaust, ?_, ?_⟩
  · intro variants t r key r' hread hk
    rw [tryReadUnionString, hread]
    dsimp only
    rw [stringGo_none variants 0 key hk]
  · intro variants t r key r' hread hk
    rw [tryReadUnionInt, hread]
    dsimp only
    rw [intGo_none variants 0 key hk]
  · intro s r len hrepr hlen
    simp only [tryReadStruct, hrepr]
    rw [if_pos hlen]
  · intro s r len hrepr hlen
    simp only [tryReadStruct, hrepr]
    rw [if_pos hlen]

/-- Witness for C3 amended at concrete unmatched keys, names, ordinals,
shapes and lengths. -/
theorem c3_error_payloads_witness :
    keyedGo [] 0 "Z" [] = .error (.typeError ⟨.key "Z", .null⟩)
      ∧ tryReadUnionString [] (.strT "x") []
          = .error (.typeError ⟨.key "x", .null⟩)
      ∧ tryReadUnionInt [] (.intT 3) []
          = .error (.typeError ⟨.key (natToString 3), .null⟩)
      ∧ kindedGo [⟨"A", none, 0, [], .null⟩] 0 (.boolT true) []
          = .error (.typeError ⟨.null, .null⟩)
      ∧ tryReadStruct ⟨"M", none, 0, [], .map⟩ (.header 5 2) []
          = .error .lengthOutOfRange
      ∧ tryReadStruct ⟨"T", none, 0, [], .tuple⟩ (.header 4 2) []
          = .error .lengthOutOfRange :=
  ⟨c3_error_payloads.1 [] 0 "Z" [] (by simp),
    c3_error_payloads.2.1 [] (.strT "x") [] "x" [] rfl (by simp),
    c3_error_payloads.2.2.1 [] (.intT 3) [] 3 []
      (by norm_num [tryReadU64]; decide) (by simp),
    c3_error_payloads.2.2.2.1 [⟨"A", none, 0, [], .null⟩] 0 (.boolT true) []
      (by intro s hs; simp at hs; subst hs; rfl),
    c3_error_payloads.2.2.2.2.1 ⟨"M", none, 0, [], .map⟩ [] 2 rfl (by decide),
    c3_error_payloads.2.2.2.2.2 ⟨"T", none, 0, [], .tuple⟩ [] 2 rfl (by decide)⟩

/-- C4: decoding a keyed union from a one-entry map whose key matches no
declared variant key fails fatally (not with the retryable not-this-shape
outcome) with `TypeError { expected: Key(key), found: Null }`, naming the
offending key. -/
theorem c4_keyed_unknown_key (u : Union) (key : String) (rest : List Tok)
    (hrepr : u.repr = .keyed)
    (hk : ∀ s ∈ u.variants, variantKey s ≠ key) :
    readUnion u (.header 5 1 :: .strT key :: rest)
      = .error (.typeError ⟨.key key, .null⟩) := by
  obtain ⟨un, uv, ur⟩ := u
  simp only at hrepr hk
  subst hrepr
  have hTRU : tryReadUnion ⟨un, uv, .keyed⟩ (.header 5 1) (.strT key :: rest)
      = .error (.typeError ⟨.key key, .null⟩) := by
    rw [tryReadUnion]
    dsimp only
    rw [tryReadUnionKeyed]
    rw [if_neg (by simp)]
    rw [decodeStrTok]
    dsimp only
    exact keyedGo_nomatch uv 0 key rest hk
  rw [readUnion, hTRU]

/-- Witness for C4: decoding `{"Z": null}` against a union declaring only
variants `A` and `B` fails naming `"Z"`. -/
theorem c4_keyed_unknown_key_witness :
    (∀ s ∈ [⟨"A", none, 0, [], .null⟩,
        ⟨"B", some "b", 1, [⟨"0", none, none⟩], .value⟩].map id,
      variantKey s ≠ "Z")
      ∧ readUnion ⟨"U", [⟨"A", none, 0, [], .null⟩,
            ⟨"B", some "b", 1, [⟨"0", none, none⟩], .value⟩], .keyed⟩
          [.header 5 1, .strT "Z", .nullT]
        = .error (.typeError ⟨.key "Z", .null⟩) := by
  have hk : ∀ s ∈ [(⟨"A", none, 0, [], .null⟩ : Struct),
      ⟨"B", some "b", 1, [⟨"0", none, none⟩], .value⟩], variantKey s ≠ "Z" := by
    intro s hs
    simp at hs
    rcases hs with h | h <;> subst h <;> simp [variantKey]
  exact ⟨by simpa using hk,
    c4_keyed_unknown_key _ "Z" [.nullT] rfl hk⟩

/-- C5: kinded-union decode runs each variant's record probe in
declaration order against the same leading marker and stream; the first
variant whose probe matches is returned — so when several variants accept
the same input shape the first declared one wins — and when every
variant's probe reports not-this-shape the decode fails fatally. -/
theorem c5_kinded_first_match :
    (∀ (u : Union) (pre : List Struct) (s : Struct) (post : List Struct)
        (t : Tok) (r : List Tok) (vals : List Ipld) (r' : List Tok),
      u.repr = .kinded → u.variants = pre ++ s :: post →
      (∀ x ∈ pre, tryReadStruct x t r = .ok none) →
      tryReadStruct s t r = .ok (some (vals, r')) →
      tryReadUnion u t r = .ok (some ((pre.length, vals), r')))
      ∧ (∀ (u : Union) (t : Tok) (r : List Tok), u.repr = .kinded →
          (∀ x ∈ u.variants, tryReadStruct x t r = .ok none) →
          tryReadUnion u t r = .error (.typeError ⟨.null, .null⟩)) := by
  constructor
  · intro u pre s post t r vals r' hrepr hvar hpre hprobe
    obtain ⟨un, uv, ur⟩ := u
    simp only at hrepr hvar
    subst hrepr
    subst hvar
    rw [tryReadUnion]
    dsimp only
    rw [kindedGo_skip pre (s :: post) 0 t r hpre]
    simp only [Nat.zero_add]
    exact kindedGo_match s post pre.length t r vals r' hprobe
  · intro u t r hrepr hall
    obtain ⟨un, uv, ur⟩ := u
    simp only at hrepr hall
    subst hrepr
    rw [tryReadUnion]
    dsimp only
    exact kindedGo_exhaust uv 0 t r hall

/-- Witness for C5: a union whose first two declared variants both accept
a bare boolean decodes `true` to the first declared variant, never the
second; and a union whose single variant matches nothing fails with the
fixed exhaustion error. -/
theorem c5_kinded_first_match_witness :
    tryReadStruct ⟨"B0", none, 0, [⟨"0", none, none⟩], .value⟩
        (.boolT true) [] = .ok (some ([.bool true], []))
      ∧ tryReadStruct ⟨"B1", none, 1, [⟨"0", none, none⟩], .value⟩
          (.boolT true) [] = .ok (some ([.bool true], []))
      ∧ tryReadUnion ⟨"U", [⟨"B0", none, 0, [⟨"0", none, none⟩], .value⟩,
            ⟨"B1", none, 1, [⟨"0", none, none⟩], .value⟩], .kinded⟩
          (.boolT true) []
        = .ok (some ((0, [.bool true]), []))
      ∧ tryReadUnion ⟨"U", [⟨"A", none, 0, [], .null⟩], .kinded⟩
          (.boolT true) []
        = .error (.typeError ⟨.null, .null⟩) := by
  have hp0 : tryReadStruct ⟨"B0", none, 0, [⟨"0", none, none⟩], .value⟩
      (.boolT true) [] = .ok (some ([.bool true], [])) := by
    simp [tryReadStruct, tryReadIpld, decIpld, decodeIpldT, Except.map]
  have hp1 : tryReadStruct ⟨"B1", none, 1, [⟨"0", none, none⟩], .value⟩
      (.boolT true) [] = .ok (some ([.bool true], [])) := by
    simp [tryReadStruct, tryReadIpld, decIpld, decodeIpldT, Except.map]
  refine ⟨hp0, hp1, ?_, ?_⟩
  · simpa using c5_kinded_first_match.1 _ []
      ⟨"B0", none, 0, [⟨"0", none, none⟩], .value⟩
      [⟨"B1", none, 1, [⟨"0", none, none⟩], .value⟩]
      (.boolT true) [] [.bool true] [] rfl rfl (by intro x hx; simp at hx) hp0
  · exact c5_kinded_first_match.2 _ (.boolT true) [] rfl
      (by intro x hx; simp at hx; subst hx; rfl)

theorem keyedGo_probe_none (s : Struct) (post : List Struct) (idx : Nat)
    (key : String) (t : Tok) (r2 : List Tok)
    (hkey : variantKey s = key) (hprobe : tryReadStruct s t r2 = .ok none)
    (hpost : ∀ x ∈ post, variantKey x ≠ key) :
    keyedGo (s :: post) idx key (t :: r2)
      = .error (.typeError ⟨.key key, .null⟩) := by
  simp only [keyedGo, if_pos hkey, hprobe]
  exact keyedGo_nomatch post (idx + 1) key r2 hpost

/-- C10: when a keyed union is decoded from a one-entry map whose key does
match a declared variant but whose value does not match that variant's
record representation (the body probe reports not-this-shape), the decode
does not return not-this-shape; it fails fatally with
`TypeError { expected: Key(key), found: Null }`, naming that key. -/
theorem c10_keyed_matching_key_bad_body (u : Union) (pre : List Struct)
    (s : Struct) (post : List Struct) (key : String) (t : Tok)
    (r2 : List Tok) (hrepr : u.repr = .keyed)
    (hvar : u.variants = pre ++ s :: post) (hkey : variantKey s = key)
    (hpre : ∀ x ∈ pre, variantKey x ≠ key)
    (hpost : ∀ x ∈ post, variantKey x ≠ key)
    (hprobe : tryReadStruct s t r2 = .ok none) :
    readUnion u (.header 5 1 :: .strT key :: t :: r2)
      = .error (.typeError ⟨.key key, .null⟩) := by
  obtain ⟨un, uv, ur⟩ := u
  simp only at hrepr hvar
  subst hrepr
  subst hvar
  have hTRU : tryReadUnion ⟨un, pre ++ s :: post, .keyed⟩ (.header 5 1)
      (.strT key :: t :: r2) = .error (.typeError ⟨.key key, .null⟩) := by
    rw [tryReadUnion]
    dsimp only
    rw [tryReadUnionKeyed]
    rw [if_neg (by simp)]
    rw [decodeStrTok]
    dsimp only
    rw [keyedGo_skip pre (s :: post) 0 key _ hpre]
    exact keyedGo_probe_none s post (0 + pre.length) key t r2 hkey hprobe hpost
  rw [readUnion, hTRU]

/-- Witness for C10: decoding `{"A": true}` against a keyed union whose
variant `A` has the `Null` record representation fails naming `"A"`. -/
theorem c10_keyed_matching_key_bad_body_witness :
    tryReadStruct ⟨"A", none, 0, [], .null⟩ (.boolT true) [] = .ok none
      ∧ readUnion ⟨"U", [⟨"A", none, 0, [], .null⟩], .keyed⟩
          [.header 5 1, .strT "A", .boolT true]
        = .error (.typeError ⟨.key "A", .null⟩) :=
  ⟨rfl,
    c10_keyed_matching_key_bad_body _ [] ⟨"A", none, 0, [], .null⟩ [] "A"
      (.boolT true) [] rfl rfl rfl (by intro x hx; simp at hx)
      (by intro x hx; simp at hx) rfl⟩

end Libipld
